import Mathlib

/-!
# Verification of the DCtype runtime type-classification registry

Shallow embedding of `src/DCtype.h` (namespace `DC`): identity-key strategies,
the two-phase map (`MutableBuilder` / `FrozenMap`), `DomainStorage`, the
`Registry`, and the free-function API (`registerType`, `getTypeOr`).

Modelling conventions:
* `TypeKey.value` (a `std::uintptr_t`) is a `Nat`; only equality and `<` on it
  matter, so no wraparound arithmetic is involved.
* Enumeration values are `Nat` (the underlying integral value of the scoped
  enum); the value-initialized `Enum{}` is `0`.
* C++ types are identified by `Nat` tokens (a type's `std::type_index` hash
  respectively its anchor address); injectivity of the host environment's
  hash is an explicit hypothesis where a theorem needs it.
* `std::sort` (called by `FrozenMap::from` with comparator
  `a.first.value < b.first.value`) is modelled by insertion sort with the
  reflexive closure `a.first.value ≤ b.first.value`: any C++ sort produces a
  permutation sorted this way, and the two can differ only on the order of
  equal keys, which the builder never produces twice.
* Diagnostics (`Diagnostics::onDuplicateRegistration` / `onMiss` /
  `onFreezeAfterQuery`) are side effects; each call site is modelled by a
  `Bool`-valued observer function stating whether the call emits it.
-/

namespace DCtype

/-- `TypeKey.value`: the identity token produced by a key strategy. -/
abbrev Key := Nat

/-- The underlying value of a scoped enumeration; `Enum{}` is `0`. -/
abbrev EnumV := Nat

/-- One entry of a domain's map: `std::pair<TypeKey, Enum>`. -/
abbrev Entry := Key × EnumV

/-! ## Key strategies (`RTTIKeyStrategy`, `AnchorKeyStrategy`)

`h` stands for the host's `std::hash<std::type_index> ∘ typeid` composite and
`anchorAddr` for the address of the per-type `static int anchor`; both map a
C++ type (a `Nat` token) to a key.  `typeid(obj)` on a polymorphic reference
yields the dynamic type, so the RTTI dynamic key is `h` of the dynamic type. -/

/-- `RTTIKeyStrategy::keyOfStatic<T>()`: hash of `type_index(typeid(T))`. -/
def rttiKeyOfStatic (h : Nat → Nat) (t : Nat) : Key := h t

/-- `RTTIKeyStrategy::keyOfDynamic(obj)`: hash of `type_index(typeid(obj))`,
which for a polymorphic `obj` is the hash of its dynamic type. -/
def rttiKeyOfDynamic (h : Nat → Nat) (dynType : Nat) : Key := h dynType

/-- `AnchorKeyStrategy::keyOfStatic<T>()`: address of the per-instantiation
`static int anchor`. -/
def anchorKeyOfStatic (anchorAddr : Nat → Nat) (t : Nat) : Key := anchorAddr t

/-- `AnchorKeyStrategy::keyOfDynamic<Base>(obj)`: when `Base` derives from
`IAnchorProvider` it returns `obj.getTypeAnchor()` (the provider's contract:
the anchor of the object's dynamic type); otherwise it falls back to
`keyOfStatic<std::decay_t<decltype(obj)>>()`, and `decltype(obj)` is
`const Base&`, i.e. the *static* base type's anchor. -/
def anchorKeyOfDynamic (anchorAddr : Nat → Nat) (baseHasAnchorProvider : Bool)
    (base dynType : Nat) : Key :=
  if baseHasAnchorProvider then anchorAddr dynType else anchorAddr base

/-! ## `DomainId::make` -/

/-- One step of the 64-bit hash combine in `DomainId::make`:
`seed ^= h + 0x9e3779b97f4a7c15 + (seed << 6) + (seed >> 2)`, every operation
on `std::size_t` taken modulo `2^64` ( `seed << 6` is `seed * 64` and
`seed >> 2` is `seed / 4`; reducing the whole sum once modulo `2^64` equals
reducing after every addition). -/
def hashCombine (seed h : Nat) : Nat :=
  seed ^^^ ((h + 0x9e3779b97f4a7c15 + seed * 64 + seed / 4) % 2 ^ 64)

/-- `DomainId::make<Base, Enum, KeyStrat>()`: combine the three
`std::hash<std::type_index>` values of the triple. -/
def DomainId.make (hBase hEnum hStrat : Nat) : Nat :=
  hashCombine (hashCombine hBase hEnum) hStrat

/-! ## `MutableBuilder<Enum>` -/

/-- The entry-vector update performed by `MutableBuilder::insert`: `find_if`
the first pair whose key equals `k`; if found overwrite its value in place,
otherwise `emplace_back(k, v)`. -/
def insertEntries : List Entry → Key → EnumV → List Entry
  | [], k, v => [(k, v)]
  | (k', v') :: rest, k, v =>
    if k' = k then (k', v) :: rest else (k', v') :: insertEntries rest k v

/-- Whether `find_if` in `MutableBuilder::insert` finds `k`, i.e. whether the
`Diagnostics::onDuplicateRegistration` call site is reached. -/
def containsKey (l : List Entry) (k : Key) : Bool :=
  l.any fun p => p.1 == k

/-- `MutableBuilder::insert(k, v)`: returns the `bool` result (`true` on both
the overwrite and the append path) and the updated entry vector. -/
def MutableBuilder.insert (l : List Entry) (k : Key) (v : EnumV) :
    Bool × List Entry :=
  (true, insertEntries l k v)

/-- `MutableBuilder::insert` emits the duplicate-registration diagnostic
exactly when the key is already present. -/
def MutableBuilder.insertEmitsDup (l : List Entry) (k : Key) : Bool :=
  containsKey l k

/-- `MutableBuilder::getOr(fallback, key)`: linear `find_if` over the
yet-unsorted entries. -/
def MutableBuilder.getOr (l : List Entry) (fallback : EnumV) (k : Key) : EnumV :=
  match l.find? (fun p => p.1 == k) with
  | some p => p.2
  | none => fallback

/-! ## `FrozenMap<Enum>` -/

/-- The comparator `a.first.value < b.first.value` of `FrozenMap::from`,
taken as its reflexive closure for the sortedness predicate. -/
def entryLE (a b : Entry) : Prop := a.1 ≤ b.1

instance : DecidableRel entryLE := fun a b => Nat.decLe a.1 b.1

instance : IsTotal Entry entryLE := ⟨fun a b => Nat.le_total a.1 b.1⟩

instance : IsTrans Entry entryLE := ⟨fun _ _ _ => Nat.le_trans⟩

/-- `FrozenMap::from(data)`: sort the entries by key value. -/
def FrozenMap.fromEntries (l : List Entry) : List Entry :=
  List.insertionSort entryLE l

/-- `std::lower_bound` over the (sorted) entry vector with comparator
`a.first.value < b.first.value`: the first element `p` with
`¬ (p.1 < k)`, i.e. `k ≤ p.1`. -/
def FrozenMap.lowerBound (l : List Entry) (k : Key) : Option Entry :=
  l.find? fun p => decide (k ≤ p.1)

/-- `FrozenMap::getOr(fallback, key)`: empty check, `lower_bound`, then the
exact-match test `it->first == key`. -/
def FrozenMap.getOr (l : List Entry) (fallback : EnumV) (k : Key) : EnumV :=
  if l.isEmpty then fallback
  else
    match FrozenMap.lowerBound l k with
    | some p => if p.1 = k then p.2 else fallback
    | none => fallback

/-! ## `DomainStorage<Base, Enum, KeyStrat>`

The mutable state behind the mutex: the phase flag `frozen_`, the
diagnostics-only flag `queried_`, the builder's entry vector and the frozen
map's entry vector.  The mutex serializes the operations, so each operation
is a state transformer; key computation (`keyOfStatic` / `keyOfDynamic`) is
pure and passed in as the already-computed `Key`. -/

structure DomState where
  frozen : Bool
  queried : Bool
  builder : List Entry
  frozenMap : List Entry
deriving DecidableEq, Repr

/-- A freshly constructed `DomainStorage`: building phase, never queried,
empty builder and empty frozen map. -/
def initDom : DomState :=
  { frozen := false, queried := false, builder := [], frozenMap := [] }

/-- `DomainStorage::registerType<Derived>(value)`: under the lock, fail if
frozen (no mutation), else insert the static key into the builder. -/
def DomainStorage.registerType (s : DomState) (k : Key) (v : EnumV) :
    Bool × DomState :=
  if s.frozen then (false, s)
  else
    ((MutableBuilder.insert s.builder k v).1,
      { s with builder := (MutableBuilder.insert s.builder k v).2 })

/-- `DomainStorage::freeze()`: no-op when already frozen; else move the
builder into the frozen map (sorting it) and set the phase flag.  The
moved-from builder vector is empty. -/
def DomainStorage.freeze (s : DomState) : DomState :=
  if s.frozen then s
  else
    { frozen := true, queried := s.queried, builder := [],
      frozenMap := FrozenMap.fromEntries s.builder }

/-- Whether a call to `DomainStorage::freeze()` reaches the
`Diagnostics::onFreezeAfterQuery` call site: only when not yet frozen and
queried while building. -/
def DomainStorage.freezeEmitsDiag (s : DomState) : Bool :=
  !s.frozen && s.queried

/-- `DomainStorage::queryOr(fallback, obj)` with the dynamic key already
computed: frozen path reads the frozen map and mutates nothing; building
path takes the lock, sets `queried_`, and reads the builder. -/
def DomainStorage.queryOr (s : DomState) (fallback : EnumV) (k : Key) :
    EnumV × DomState :=
  if s.frozen then (FrozenMap.getOr s.frozenMap fallback k, s)
  else (MutableBuilder.getOr s.builder fallback k, { s with queried := true })

/-- Whether `DomainStorage::queryOr` reaches the `Diagnostics::onMiss` call
site: in both branches, exactly when the returned value equals `fallback`. -/
def DomainStorage.queryEmitsMiss (s : DomState) (fallback : EnumV) (k : Key) :
    Bool :=
  (DomainStorage.queryOr s fallback k).1 == fallback

/-- A sequence of `DomainStorage::registerType` calls, each with its
(static key, value) pair, applied in order. -/
def regFold (s : DomState) (regs : List Entry) : DomState :=
  regs.foldl (fun s p => (DomainStorage.registerType s p.1 p.2).2) s

/-! ## `Registry`

The registry's `domains_` map (`unordered_map<uintptr_t, unique_ptr<IAnyDomain>>`)
is an association list from `DomainId` value to the owned storage state.  A
returned `DomainHandle&` is identified by its registry slot, i.e. by its
`DomainId` value: two calls return the same storage instance exactly when
they address the same slot. -/

/-- The registry's domain map. -/
abbrev RegState := List (Nat × DomState)

/-- `domains_.find(id)`. -/
def RegState.find : RegState → Nat → Option DomState
  | [], _ => none
  | (i, d) :: rest, id => if i = id then some d else RegState.find rest id

/-- Store an updated state back into the slot `id` (the in-place mutation of
the storage the returned reference points at). -/
def RegState.set : RegState → Nat → DomState → RegState
  | [], id, d => [(id, d)]
  | (i, d') :: rest, id, d =>
    if i = id then (i, d) :: rest else (i, d') :: RegState.set rest id d

/-- `Registry::domain<Base, Enum, KeyStrat>()`: look the id up, and on a miss
construct a fresh `DomainHandle` and insert it.  (The whole call holds the
registry mutex.) -/
def Registry.domain (r : RegState) (id : Nat) : RegState :=
  match RegState.find r id with
  | some _ => r
  | none => (id, initDom) :: r

/-- The free function `DC::registerType<Base, Enum, Derived, KeyStrat>(value)`:
gets the domain handle from the registry, calls
`storage().registerType<Derived>(value)` and **discards its `bool` result**
(the free function's return type is `void`), so it returns only the new
registry state. -/
def registerTypeFree (r : RegState) (id : Nat) (k : Key) (v : EnumV) :
    RegState :=
  let r1 := Registry.domain r id
  match RegState.find r1 id with
  | some d => RegState.set r1 id (DomainStorage.registerType d k v).2
  | none => r1

/-- The free function `DC::getTypeOr<Base, Enum, KeyStrat>(obj, fallback)`
(and `DC::getType`, which calls it with `Enum{}` i.e. `0`): gets the domain
handle and calls `queryOr`. -/
def getTypeOrFree (r : RegState) (id : Nat) (fallback : EnumV) (k : Key) :
    EnumV × RegState :=
  let r1 := Registry.domain r id
  match RegState.find r1 id with
  | some d =>
    ((DomainStorage.queryOr d fallback k).1,
      RegState.set r1 id (DomainStorage.queryOr d fallback k).2)
  | none => (fallback, r1)

/-! ## The simplified per-enum registry exercised by `Test.cpp` -/

/-- Modelled from the spec: the simplified API that `src/Test.cpp` exercises —
`DC::setFallback<Enum>` (a per-domain fallback value settable only before
freezing), auto-freeze on first query, and the fallback chain
explicit argument → configured fallback → `Enum{}` — has no implementation
under `src/` (`src/DCtype.h` contains neither `setFallback` nor
`GlobalRegistry` nor an auto-freezing query).  This state follows spec
§4.3 ("a domain may carry a settable fallback value, settable only before
freezing, and a domain may freeze itself automatically the first time it is
queried") and §7's fallback-value chain, reusing the two-phase map of
`src/DCtype.h`. -/
structure SimpleDomain where
  frozen : Bool
  fallback : Option EnumV
  builder : List Entry
  frozenMap : List Entry
deriving DecidableEq, Repr

/-- Modelled from the spec: a fresh simplified domain — building phase, no
configured fallback, no entries. -/
def SimpleDomain.init : SimpleDomain :=
  { frozen := false, fallback := none, builder := [], frozenMap := [] }

/-- Modelled from the spec: registration into the simplified domain — fails
(without mutation) once frozen, else inserts into the builder. -/
def SimpleDomain.registerType (s : SimpleDomain) (k : Key) (v : EnumV) :
    Bool × SimpleDomain :=
  if s.frozen then (false, s)
  else (true, { s with builder := insertEntries s.builder k v })

/-- Modelled from the spec: `DC::setFallback<Enum>(v)` — configures the
domain fallback; must occur before freezing. -/
def SimpleDomain.setFallback (s : SimpleDomain) (v : EnumV) :
    Bool × SimpleDomain :=
  if s.frozen then (false, s)
  else (true, { s with fallback := some v })

/-- Modelled from the spec: freeze of the simplified domain — idempotent,
moves the builder into the sorted frozen map. -/
def SimpleDomain.freeze (s : SimpleDomain) : SimpleDomain :=
  if s.frozen then s
  else
    { frozen := true, fallback := s.fallback, builder := [],
      frozenMap := FrozenMap.fromEntries s.builder }

/-- Modelled from the spec: the fallback value a query resolves a miss to —
the caller's explicit fallback when supplied, else the configured domain
fallback when set, else the enumeration's zero value. -/
def SimpleDomain.effectiveFallback (s : SimpleDomain)
    (explicitFb : Option EnumV) : EnumV :=
  explicitFb.getD (s.fallback.getD 0)

/-- Modelled from the spec: query of the simplified domain — auto-freezes on
first query (so every query runs against the frozen map), then performs a
frozen lookup with the effective fallback. -/
def SimpleDomain.query (s : SimpleDomain) (explicitFb : Option EnumV)
    (k : Key) : EnumV × SimpleDomain :=
  let s1 := SimpleDomain.freeze s
  (FrozenMap.getOr s1.frozenMap (SimpleDomain.effectiveFallback s1 explicitFb) k,
    s1)

/-- Modelled from the spec: the query-miss diagnostic of the simplified
domain is emitted exactly when the returned value equals the effective
fallback; a miss is never a thrown failure (`query` is a total function). -/
def SimpleDomain.queryEmitsMiss (s : SimpleDomain) (explicitFb : Option EnumV)
    (k : Key) : Bool :=
  (SimpleDomain.query s explicitFb k).1 ==
    SimpleDomain.effectiveFallback (SimpleDomain.freeze s) explicitFb

/-! ## Lemmas about the two-phase map -/

/-- The keys of an entry list. -/
def keysOf (l : List Entry) : List Key := l.map Prod.fst

theorem getOr_cons_self (k : Key) (v : EnumV) (rest : List Entry)
    (fb : EnumV) : MutableBuilder.getOr ((k, v) :: rest) fb k = v := by
  simp [MutableBuilder.getOr, List.find?_cons_of_pos]

theorem getOr_cons_ne {k' k : Key} (h : k' ≠ k) (v' : EnumV)
    (rest : List Entry) (fb : EnumV) :
    MutableBuilder.getOr ((k', v') :: rest) fb k =
      MutableBuilder.getOr rest fb k := by
  have : ((k', v').1 == k) = false := by simpa using h
  simp [MutableBuilder.getOr, List.find?_cons, this]

theorem getOr_insertEntries_self (l : List Entry) (k : Key) (v fb : EnumV) :
    MutableBuilder.getOr (insertEntries l k v) fb k = v := by
  induction l with
  | nil => simp [insertEntries, MutableBuilder.getOr, List.find?]
  | cons p rest ih =>
    obtain ⟨k', v'⟩ := p
    by_cases h : k' = k
    · subst h
      simp [insertEntries, getOr_cons_self]
    · rw [insertEntries, if_neg h, getOr_cons_ne h, ih]

theorem getOr_insertEntries_ne {k' k : Key} (h : k' ≠ k) (l : List Entry)
    (v' fb : EnumV) :
    MutableBuilder.getOr (insertEntries l k' v') fb k =
      MutableBuilder.getOr l fb k := by
  induction l with
  | nil =>
    have : (k' == k) = false := by simpa using h
    simp [insertEntries, MutableBuilder.getOr, List.find?, this]
  | cons p rest ih =>
    obtain ⟨k₁, v₁⟩ := p
    by_cases h₁ : k₁ = k'
    · subst h₁
      rw [insertEntries, if_pos rfl, getOr_cons_ne h, getOr_cons_ne h]
    · rw [insertEntries, if_neg h₁]
      by_cases h₂ : k₁ = k
      · subst h₂
        simp [getOr_cons_self]
      · rw [getOr_cons_ne h₂, getOr_cons_ne h₂, ih]

theorem mem_keysOf_insertEntries {l : List Entry} {k : Key} {v : EnumV}
    {x : Key} (hx : x ∈ keysOf (insertEntries l k v)) :
    x = k ∨ x ∈ keysOf l := by
  induction l with
  | nil => simpa [insertEntries, keysOf] using hx
  | cons p rest ih =>
    obtain ⟨k₁, v₁⟩ := p
    by_cases h : k₁ = k
    · subst h
      simpa [insertEntries, keysOf] using hx
    · rw [insertEntries, if_neg h] at hx
      rcases (by simpa [keysOf] using hx : x = k₁ ∨ x ∈ keysOf (insertEntries rest k v)) with h₁ | h₁
      · exact Or.inr (by simp [keysOf, h₁])
      · rcases ih h₁ with h₂ | h₂
        · exact Or.inl h₂
        · exact Or.inr (by simp [keysOf] at h₂ ⊢; exact Or.inr h₂)

theorem nodup_keysOf_insertEntries {l : List Entry} (k : Key) (v : EnumV)
    (hnd : (keysOf l).Nodup) : (keysOf (insertEntries l k v)).Nodup := by
  induction l with
  | nil => simp [insertEntries, keysOf]
  | cons p rest ih =>
    obtain ⟨k₁, v₁⟩ := p
    rw [keysOf, List.map_cons, List.nodup_cons] at hnd
    by_cases h : k₁ = k
    · subst h
      rw [insertEntries, if_pos rfl]
      simpa [keysOf, List.nodup_cons] using hnd
    · rw [insertEntries, if_neg h]
      rw [keysOf, List.map_cons, List.nodup_cons]
      refine ⟨fun hc => ?_, ih hnd.2⟩
      rcases mem_keysOf_insertEntries hc with h₁ | h₁
      · exact h h₁
      · exact hnd.1 h₁

theorem builder_getOr_of_not_mem {l : List Entry} {k : Key}
    (h : k ∉ keysOf l) (fb : EnumV) : MutableBuilder.getOr l fb k = fb := by
  induction l with
  | nil => simp [MutableBuilder.getOr, List.find?]
  | cons p rest ih =>
    obtain ⟨k₁, v₁⟩ := p
    have hne : k₁ ≠ k := fun hc => h (by simp [keysOf, hc])
    rw [getOr_cons_ne hne]
    exact ih fun hc => h (by simp [keysOf] at hc ⊢; exact Or.inr hc)

theorem builder_getOr_of_mem {l : List Entry}
    (hnd : (keysOf l).Nodup) {k : Key} {v : EnumV} (hmem : (k, v) ∈ l)
    (fb : EnumV) : MutableBuilder.getOr l fb k = v := by
  induction l with
  | nil => cases hmem
  | cons p rest ih =>
    obtain ⟨k₁, v₁⟩ := p
    rw [keysOf, List.map_cons, List.nodup_cons] at hnd
    rcases List.mem_cons.1 hmem with h | h
    · cases h
      exact getOr_cons_self k v rest fb
    · have hne : k₁ ≠ k := fun hc => by
        subst hc
        exact hnd.1 (by simpa [keysOf] using List.mem_map_of_mem Prod.fst h)
      rw [getOr_cons_ne hne]
      exact ih hnd.2 h

theorem frozenMap_getOr_of_not_mem {m : List Entry} {k : Key}
    (h : k ∉ keysOf m) (fb : EnumV) : FrozenMap.getOr m fb k = fb := by
  rw [FrozenMap.getOr]
  by_cases he : m.isEmpty
  · rw [if_pos he]
  · rw [if_neg he]
    cases hfind : FrozenMap.lowerBound m k with
    | none => rfl
    | some p =>
      have hp : p ∈ m := List.mem_of_find?_eq_some hfind
      have : p.1 ≠ k := fun hc =>
        h (hc ▸ List.mem_map_of_mem Prod.fst hp)
      simp [this]

theorem frozenMap_getOr_of_mem : ∀ {m : List Entry},
    List.Sorted entryLE m → (keysOf m).Nodup →
    ∀ {k : Key} {v : EnumV}, (k, v) ∈ m → ∀ fb : EnumV,
      FrozenMap.getOr m fb k = v := by
  intro m
  induction m with
  | nil => intro _ _ k v hmem; cases hmem
  | cons p rest ih =>
    intro hs hnd k v hmem fb
    obtain ⟨k₁, v₁⟩ := p
    rw [List.sorted_cons] at hs
    rw [keysOf, List.map_cons, List.nodup_cons] at hnd
    rcases List.mem_cons.1 hmem with h | h
    · cases h
      have : decide (k ≤ k) = true := by simp
      simp [FrozenMap.getOr, FrozenMap.lowerBound, List.find?_cons, this]
    · have hk₁k : k₁ ≤ k := hs.1 (k, v) h
      have hne : k₁ ≠ k := fun hc => by
        subst hc
        exact hnd.1 (by simpa [keysOf] using List.mem_map_of_mem Prod.fst h)
      have hlt : ¬ (k ≤ k₁) := fun hc => hne (Nat.le_antisymm hk₁k hc)
      have hrest : FrozenMap.getOr rest fb k = v := ih hs.2 hnd.2 h fb
      have hrest_ne : rest ≠ [] := by
        intro hc; subst hc; cases h
      rw [FrozenMap.getOr] at hrest ⊢
      rw [if_neg (by simp)]
      rw [if_neg (by simpa using hrest_ne)] at hrest
      have : (decide (k ≤ (k₁, v₁).1)) = false := by simpa using hlt
      rw [FrozenMap.lowerBound, List.find?_cons, this] at *
      exact hrest

theorem frozen_getOr_fromEntries {l : List Entry} (hnd : (keysOf l).Nodup)
    (fb : EnumV) (k : Key) :
    FrozenMap.getOr (FrozenMap.fromEntries l) fb k =
      MutableBuilder.getOr l fb k := by
  have hperm : List.Perm (FrozenMap.fromEntries l) l :=
    List.perm_insertionSort entryLE l
  have hkeys : List.Perm (keysOf (FrozenMap.fromEntries l)) (keysOf l) :=
    hperm.map Prod.fst
  have hnd' : (keysOf (FrozenMap.fromEntries l)).Nodup := hkeys.nodup_iff.2 hnd
  have hs : List.Sorted entryLE (FrozenMap.fromEntries l) :=
    List.sorted_insertionSort entryLE l
  by_cases hk : k ∈ keysOf l
  · obtain ⟨p, hp, hpk⟩ := List.mem_map.1 hk
    have hmem : (k, p.2) ∈ l := by
      have : p = (k, p.2) := by
        obtain ⟨a, b⟩ := p
        simp only at hpk
        simp [hpk]
      exact this ▸ hp
    rw [builder_getOr_of_mem hnd hmem fb,
      frozenMap_getOr_of_mem hs hnd' (hperm.mem_iff.2 hmem) fb]
  · rw [builder_getOr_of_not_mem hk fb,
      frozenMap_getOr_of_not_mem (fun hc => hk (hkeys.mem_iff.1 hc)) fb]

/-! ## Lemmas about registration sequences -/

/-- The builder entries produced by a sequence of inserts. -/
def foldInsert (l : List Entry) (regs : List Entry) : List Entry :=
  regs.foldl (fun l p => insertEntries l p.1 p.2) l

theorem regFold_building : ∀ (regs : List Entry) (s : DomState),
    s.frozen = false →
    regFold s regs = { s with builder := foldInsert s.builder regs }
  | [], s, _ => rfl
  | p :: regs, s, h => by
    rw [regFold, List.foldl_cons, DomainStorage.registerType, if_neg (by simp [h])]
    rw [show (regs.foldl (fun s p => (DomainStorage.registerType s p.1 p.2).2)
      { s with builder := (MutableBuilder.insert s.builder p.1 p.2).2 } =
      regFold { s with builder := (MutableBuilder.insert s.builder p.1 p.2).2 } regs) from rfl]
    rw [regFold_building regs _ (by simp [h])]
    rfl

theorem getOr_foldInsert {k : Key} {v fb : EnumV} :
    ∀ (regs : List Entry) (l : List Entry),
    (∀ p ∈ regs, p.1 = k → p.2 = v) →
    ((k, v) ∈ regs ∨ MutableBuilder.getOr l fb k = v) →
    MutableBuilder.getOr (foldInsert l regs) fb k = v
  | [], l, _, hbase => by
    rcases hbase with h | h
    · cases h
    · exact h
  | p :: regs, l, huniq, hbase => by
    rw [foldInsert, List.foldl_cons]
    by_cases hk : p.1 = k
    · refine getOr_foldInsert regs _ (fun q hq => huniq q (List.mem_cons_of_mem p hq))
        (Or.inr ?_)
      have hv : p.2 = v := huniq p (List.mem_cons_self p regs) hk
      rw [hk, hv, getOr_insertEntries_self]
    · refine getOr_foldInsert regs _ (fun q hq => huniq q (List.mem_cons_of_mem p hq)) ?_
      rcases hbase with h | h
      · rcases List.mem_cons.1 h with h₁ | h₁
        · exact absurd (congrArg Prod.fst h₁.symm) hk
        · exact Or.inl h₁
      · exact Or.inr (by rw [getOr_insertEntries_ne hk, h])

theorem nodup_keysOf_foldInsert : ∀ (regs l : List Entry),
    (keysOf l).Nodup → (keysOf (foldInsert l regs)).Nodup
  | [], _, h => h
  | p :: regs, l, h => by
    rw [foldInsert, List.foldl_cons]
    exact nodup_keysOf_foldInsert regs _ (nodup_keysOf_insertEntries p.1 p.2 h)

/-! ## Lemmas about the registry map -/

theorem find_set_ne {i j : Nat} (h : i ≠ j) :
    ∀ (r : RegState) (d : DomState),
    RegState.find (RegState.set r i d) j = RegState.find r j
  | [], d => by simp [RegState.set, RegState.find, h]
  | (i', d') :: rest, d => by
    by_cases h' : i' = i
    · subst h'
      rw [RegState.set, if_pos rfl, RegState.find, RegState.find,
        if_neg h, if_neg h]
    · rw [RegState.set, if_neg h', RegState.find, RegState.find]
      by_cases h'' : i' = j
      · rw [if_pos h'', if_pos h'']
      · rw [if_neg h'', if_neg h'', find_set_ne h rest d]

theorem find_domain_ne {i j : Nat} (h : i ≠ j) (r : RegState) :
    RegState.find (Registry.domain r i) j = RegState.find r j := by
  rw [Registry.domain]
  cases hf : RegState.find r i with
  | some d => rfl
  | none => rw [RegState.find, if_neg h]

theorem find_domain_self (r : RegState) (i : Nat) :
    RegState.find (Registry.domain r i) i =
      some ((RegState.find r i).getD initDom) := by
  rw [Registry.domain]
  cases hf : RegState.find r i with
  | some d => rw [hf]; rfl
  | none => rw [RegState.find, if_pos rfl]; rfl

theorem find_registerTypeFree_ne {i j : Nat} (h : i ≠ j) (r : RegState)
    (k : Key) (v : EnumV) :
    RegState.find (registerTypeFree r i k v) j = RegState.find r j := by
  rw [registerTypeFree]
  simp only [find_domain_self]
  rw [find_set_ne h, find_domain_ne h]

theorem getTypeOrFree_fst_congr {r r' : RegState} {j : Nat}
    (h : RegState.find r' j = RegState.find r j) (fb : EnumV) (k : Key) :
    (getTypeOrFree r' j fb k).1 = (getTypeOrFree r j fb k).1 := by
  rw [getTypeOrFree, getTypeOrFree]
  simp only [find_domain_self, h]

theorem domain_domain (r : RegState) (i : Nat) :
    Registry.domain (Registry.domain r i) i = Registry.domain r i := by
  conv_lhs => rw [Registry.domain]
  rw [find_domain_self]

theorem containsKey_iff {l : List Entry} {k : Key} :
    containsKey l k = true ↔ k ∈ keysOf l := by
  simp only [containsKey, keysOf, List.any_eq_true, List.mem_map, beq_iff_eq]

theorem insertEntries_append {l : List Entry} {k : Key} (h : k ∉ keysOf l)
    (v : EnumV) : insertEntries l k v = l ++ [(k, v)] := by
  induction l with
  | nil => rfl
  | cons p rest ih =>
    obtain ⟨k₁, v₁⟩ := p
    have hne : k₁ ≠ k := fun hc => h (by simp [keysOf, hc])
    rw [insertEntries, if_neg hne, List.cons_append,
      ih fun hc => h (by simp [keysOf] at hc ⊢; exact Or.inr hc)]

theorem keysOf_insertEntries_of_mem {l : List Entry} {k : Key}
    (h : k ∈ keysOf l) (v : EnumV) :
    keysOf (insertEntries l k v) = keysOf l := by
  induction l with
  | nil => simp [keysOf] at h
  | cons p rest ih =>
    obtain ⟨k₁, v₁⟩ := p
    by_cases h₁ : k₁ = k
    · rw [insertEntries, if_pos h₁]; simp [keysOf]
    · rw [insertEntries, if_neg h₁]
      have hk : k ∈ keysOf rest := by
        rcases (by simpa [keysOf, eq_comm] using h : k = k₁ ∨ k ∈ keysOf rest)
          with hc | hc
        · exact absurd hc.symm h₁
        · exact hc
      simp only [keysOf, List.map_cons] at ih ⊢
      rw [ih hk]

/-! ## The claims -/

/-- C1: Round-trip correctness.  Registrations are a sequence of
`DomainStorage::registerType` calls, each recorded as its (static key,
value) pair, applied to a fresh domain; `freeze()` follows; then a query
whose dynamic key `kd` equals the static key `ks` of the concrete type
(the identity-strategy hypothesis).  If `(ks, v)` was registered and `ks`
was not registered again with another value, the frozen query returns
exactly `v`, whatever the fallback. -/
theorem C1_roundtrip_after_freeze (regs : List Entry) (ks kd : Key)
    (v fb : EnumV) (hid : kd = ks) (hreg : (ks, v) ∈ regs)
    (huniq : ∀ p ∈ regs, p.1 = ks → p.2 = v) :
    (DomainStorage.queryOr (DomainStorage.freeze (regFold initDom regs))
      fb kd).1 = v := by
  subst hid
  rw [regFold_building regs initDom rfl]
  have hstate : ({ initDom with builder := foldInsert initDom.builder regs } :
      DomState) =
      { frozen := false, queried := false, builder := foldInsert [] regs,
        frozenMap := [] } := rfl
  rw [hstate]
  rw [show DomainStorage.freeze
      { frozen := false, queried := false, builder := foldInsert [] regs,
        frozenMap := [] } =
      { frozen := true, queried := false, builder := [],
        frozenMap := FrozenMap.fromEntries (foldInsert [] regs) } from rfl]
  rw [show (DomainStorage.queryOr
      { frozen := true, queried := false, builder := [],
        frozenMap := FrozenMap.fromEntries (foldInsert [] regs) } fb kd).1 =
      FrozenMap.getOr (FrozenMap.fromEntries (foldInsert [] regs)) fb kd
      from rfl]
  rw [frozen_getOr_fromEntries
    (nodup_keysOf_foldInsert regs [] (by simp [keysOf]))]
  exact getOr_foldInsert regs [] huniq (Or.inl hreg)

/-- C1 witness: register keys 1 ↦ 10 and 2 ↦ 20, freeze, query key 1 with
fallback 0: the result is 10. -/
theorem C1_roundtrip_after_freeze_witness :
    (1, 10) ∈ [((1 : Key), (10 : EnumV)), (2, 20)] ∧
    (DomainStorage.queryOr
      (DomainStorage.freeze (regFold initDom [(1, 10), (2, 20)])) 0 1).1 =
      10 :=
  ⟨by decide,
    C1_roundtrip_after_freeze [(1, 10), (2, 20)] 1 1 10 0 rfl (by decide)
      (by decide)⟩

/-- C2 counterexample: under `AnchorKeyStrategy` with a base type that does
not derive from `IAnchorProvider` (`baseHasAnchorProvider = false`),
`keyOfDynamic` falls back to the *static* base type's anchor
(`src/DCtype.h` lines 69–77), so two instances of the distinct concrete
types 1 and 2 under base type 0 receive equal dynamic tokens — refuting
"tokens are equal iff the two types are the same concrete type" as stated.
(`anchorAddr` is instantiated with the identity, a concrete injective
anchor-address assignment.) -/
theorem C2_token_discrimination_counterexample :
    anchorKeyOfDynamic id false 0 1 = anchorKeyOfDynamic id false 0 2 ∧
    (1 : Nat) ≠ 2 :=
  ⟨rfl, by decide⟩

/-- C2 amended: tokens are equal iff the types are equal for `keyOfStatic`
under both strategies and for `keyOfDynamic` under the RTTI strategy and
under the anchor strategy with an anchor-provider base (given the host's
hash `h` and the anchor-address map `a` are injective); without the
provider capability, anchor-strategy dynamic tokens of any two instances
under one base coincide (the documented degradation to the static base
type). -/
theorem C2_token_discrimination_amended (h a : Nat → Nat)
    (hinj : Function.Injective h) (ainj : Function.Injective a)
    (t u base d1 d2 : Nat) :
    (rttiKeyOfStatic h t = rttiKeyOfStatic h u ↔ t = u) ∧
    (rttiKeyOfDynamic h d1 = rttiKeyOfDynamic h d2 ↔ d1 = d2) ∧
    (anchorKeyOfStatic a t = anchorKeyOfStatic a u ↔ t = u) ∧
    (anchorKeyOfDynamic a true base d1 = anchorKeyOfDynamic a true base d2 ↔
      d1 = d2) ∧
    anchorKeyOfDynamic a false base d1 = anchorKeyOfDynamic a false base d2 :=
  ⟨⟨fun hh => hinj hh, fun hh => congrArg h hh⟩,
    ⟨fun hh => hinj hh, fun hh => congrArg h hh⟩,
    ⟨fun hh => ainj hh, fun hh => congrArg a hh⟩,
    ⟨fun hh => ainj hh, fun hh => congrArg a hh⟩, rfl⟩

/-- C2 amended witness at `h = a = id`, types 3, 4, base 0, dynamic types
1, 2. -/
theorem C2_token_discrimination_amended_witness :
    Function.Injective (id : Nat → Nat) ∧
    ((rttiKeyOfStatic id 3 = rttiKeyOfStatic id 4 ↔ (3 : Nat) = 4) ∧
    (rttiKeyOfDynamic id 1 = rttiKeyOfDynamic id 2 ↔ (1 : Nat) = 2) ∧
    (anchorKeyOfStatic id 3 = anchorKeyOfStatic id 4 ↔ (3 : Nat) = 4) ∧
    (anchorKeyOfDynamic id true 0 1 = anchorKeyOfDynamic id true 0 2 ↔
      (1 : Nat) = 2) ∧
    anchorKeyOfDynamic id false 0 1 = anchorKeyOfDynamic id false 0 2) :=
  ⟨fun _ _ hh => hh,
    C2_token_discrimination_amended id id (fun _ _ hh => hh)
      (fun _ _ hh => hh) 3 4 0 1 2⟩

/-- C7: Registration on a frozen `DomainStorage` returns `false`, leaves the
state completely unchanged, and therefore alters no subsequent query. -/
theorem C7_register_after_freeze_noop (s : DomState) (hfz : s.frozen = true)
    (k : Key) (v : EnumV) (fb : EnumV) (k' : Key) :
    DomainStorage.registerType s k v = (false, s) ∧
    DomainStorage.queryOr (DomainStorage.registerType s k v).2 fb k' =
      DomainStorage.queryOr s fb k' := by
  have h1 : DomainStorage.registerType s k v = (false, s) := by
    rw [DomainStorage.registerType, if_pos hfz]
  exact ⟨h1, by rw [h1]⟩

/-- C7 witness: a frozen domain holding key 1 ↦ 2; registering 3 ↦ 4 fails
without mutation and queries are unchanged. -/
theorem C7_register_after_freeze_noop_witness :
    (⟨true, false, [], [(1, 2)]⟩ : DomState).frozen = true ∧
    (DomainStorage.registerType (⟨true, false, [], [(1, 2)]⟩ : DomState) 3 4 =
      (false, ⟨true, false, [], [(1, 2)]⟩) ∧
    DomainStorage.queryOr
      (DomainStorage.registerType (⟨true, false, [], [(1, 2)]⟩ : DomState)
        3 4).2 0 1 =
      DomainStorage.queryOr (⟨true, false, [], [(1, 2)]⟩ : DomState) 0 1) :=
  ⟨rfl, C7_register_after_freeze_noop ⟨true, false, [], [(1, 2)]⟩ rfl 3 4 0 1⟩

/-- C8: `MutableBuilder::insert` always returns `true`; the
duplicate-registration diagnostic is emitted exactly when the token is
already present; after inserting `(k, v2)` a lookup of `k` returns `v2`
(in particular after registering `v1` then `v2`); a fresh token is
appended; a present token is overwritten in place (the key list is
unchanged). -/
theorem C8_insert_last_write_wins (l : List Entry) (k : Key)
    (v1 v2 fb : EnumV) :
    (MutableBuilder.insert l k v2).1 = true ∧
    (MutableBuilder.insertEmitsDup l k = true ↔ k ∈ keysOf l) ∧
    MutableBuilder.getOr (insertEntries l k v2) fb k = v2 ∧
    MutableBuilder.getOr (insertEntries (insertEntries l k v1) k v2) fb k =
      v2 ∧
    (k ∉ keysOf l → insertEntries l k v2 = l ++ [(k, v2)]) ∧
    (k ∈ keysOf l → keysOf (insertEntries l k v2) = keysOf l) :=
  ⟨rfl, containsKey_iff, getOr_insertEntries_self l k v2 fb,
    getOr_insertEntries_self (insertEntries l k v1) k v2 fb,
    fun h => insertEntries_append h v2,
    fun h => keysOf_insertEntries_of_mem h v2⟩

/-- C8 witness at `l = [(1, 5)]`, duplicate key 1 and fresh key 2. -/
theorem C8_insert_last_write_wins_witness :
    ((MutableBuilder.insert [(1, 5)] 1 7).1 = true ∧
    (MutableBuilder.insertEmitsDup [(1, 5)] 1 = true ↔
      (1 : Key) ∈ keysOf [(1, 5)]) ∧
    MutableBuilder.getOr (insertEntries [(1, 5)] 1 7) 0 1 = 7 ∧
    MutableBuilder.getOr (insertEntries (insertEntries [(1, 5)] 1 6) 1 7)
      0 1 = 7 ∧
    ((1 : Key) ∉ keysOf [(1, 5)] →
      insertEntries [(1, 5)] 1 7 = [(1, 5)] ++ [(1, 7)]) ∧
    ((1 : Key) ∈ keysOf [(1, 5)] →
      keysOf (insertEntries [(1, 5)] 1 7) = keysOf [(1, 5)])) ∧
    MutableBuilder.insertEmitsDup [(1, 5)] 2 = false :=
  ⟨C8_insert_last_write_wins [(1, 5)] 1 6 7 0, by decide⟩

/-- C9: `DomainStorage::freeze` is idempotent: a second call returns the
same state (it is a no-op on an already-frozen domain) and emits no
freeze-after-query diagnostic. -/
theorem C9_freeze_idempotent (s : DomState) :
    DomainStorage.freeze (DomainStorage.freeze s) = DomainStorage.freeze s ∧
    (DomainStorage.freeze s).frozen = true ∧
    DomainStorage.freezeEmitsDiag (DomainStorage.freeze s) = false := by
  have hf : (DomainStorage.freeze s).frozen = true := by
    rw [DomainStorage.freeze]
    by_cases h : s.frozen
    · rw [if_pos h]; exact h
    · rw [if_neg h]
  refine ⟨?_, hf, ?_⟩
  · conv_lhs => rw [DomainStorage.freeze]
    rw [if_pos hf]
  · rw [DomainStorage.freezeEmitsDiag, hf]
    rfl

/-- C10: `DomainStorage::queryOr` frame property: on a frozen domain it
mutates nothing at all; on a building domain it mutates only the
`queried_` flag. -/
theorem C10_query_frame (s : DomState) (fb : EnumV) (k : Key) :
    (s.frozen = true → (DomainStorage.queryOr s fb k).2 = s) ∧
    (s.frozen = false →
      (DomainStorage.queryOr s fb k).2 = { s with queried := true }) := by
  constructor
  · intro h
    rw [DomainStorage.queryOr, if_pos h]
  · intro h
    rw [DomainStorage.queryOr, if_neg (by simp [h])]

/-- C10 witness: one frozen and one building domain. -/
theorem C10_query_frame_witness :
    (⟨true, false, [(1, 2)], [(1, 2)]⟩ : DomState).frozen = true ∧
    (DomainStorage.queryOr (⟨true, false, [(1, 2)], [(1, 2)]⟩ : DomState)
      0 1).2 = ⟨true, false, [(1, 2)], [(1, 2)]⟩ ∧
    (⟨false, false, [(1, 2)], []⟩ : DomState).frozen = false ∧
    (DomainStorage.queryOr (⟨false, false, [(1, 2)], []⟩ : DomState) 0 1).2 =
      ⟨false, true, [(1, 2)], []⟩ :=
  ⟨rfl, (C10_query_frame ⟨true, false, [(1, 2)], [(1, 2)]⟩ 0 1).1 rfl, rfl,
    (C10_query_frame ⟨false, false, [(1, 2)], []⟩ 0 1).2 rfl⟩

/-- C3: Registry domain-identity invariant.  C++ types are represented by
their `std::hash<std::type_index>` values (assumed to identify types; the
registry itself offers no more), a Domain Key triple by the three hash
values, and a returned `DomainHandle&` by its registry slot, i.e. its
`DomainId` value.  Under the hypothesis `hcoll` that the hash combine of
`DomainId::make` does not collide on the two triples at hand: the two
calls address the same storage instance iff the triples are equal; a
repeated `Registry::domain` call returns the registry unchanged (the
reference is stable); and for distinct triples — in particular triples
differing only in the enumeration type — a registration through one
domain changes neither the stored state nor any query result of the
other. -/
theorem C3_registry_domain_identity (b1 e1 k1 b2 e2 k2 : Nat) (r : RegState)
    (k : Key) (v : EnumV) (fb : EnumV) (kq : Key)
    (hcoll : DomainId.make b1 e1 k1 = DomainId.make b2 e2 k2 →
      (b1, e1, k1) = (b2, e2, k2)) :
    (DomainId.make b1 e1 k1 = DomainId.make b2 e2 k2 ↔
      (b1, e1, k1) = (b2, e2, k2)) ∧
    Registry.domain (Registry.domain r (DomainId.make b1 e1 k1))
      (DomainId.make b1 e1 k1) =
      Registry.domain r (DomainId.make b1 e1 k1) ∧
    ((b1, e1, k1) ≠ (b2, e2, k2) →
      RegState.find (registerTypeFree r (DomainId.make b1 e1 k1) k v)
        (DomainId.make b2 e2 k2) =
        RegState.find r (DomainId.make b2 e2 k2) ∧
      (getTypeOrFree (registerTypeFree r (DomainId.make b1 e1 k1) k v)
        (DomainId.make b2 e2 k2) fb kq).1 =
        (getTypeOrFree r (DomainId.make b2 e2 k2) fb kq).1) := by
  refine ⟨⟨hcoll, fun h => ?_⟩, domain_domain r _, fun hne => ?_⟩
  · simp only [Prod.mk.injEq] at h
    obtain ⟨hb, he, hk⟩ := h
    rw [hb, he, hk]
  · have hne' : DomainId.make b1 e1 k1 ≠ DomainId.make b2 e2 k2 :=
      fun hc => hne (hcoll hc)
    exact ⟨find_registerTypeFree_ne hne' r k v,
      getTypeOrFree_fst_congr (find_registerTypeFree_ne hne' r k v) fb kq⟩

/-- C3 witness at the triples (1, 2, 3) and (1, 4, 3), which differ only in
the enumeration type, on an empty registry. -/
theorem C3_registry_domain_identity_witness :
    (DomainId.make 1 2 3 = DomainId.make 1 4 3 →
      ((1 : Nat), (2 : Nat), (3 : Nat)) = (1, 4, 3)) ∧
    ((DomainId.make 1 2 3 = DomainId.make 1 4 3 ↔
      ((1 : Nat), (2 : Nat), (3 : Nat)) = (1, 4, 3)) ∧
    Registry.domain (Registry.domain [] (DomainId.make 1 2 3))
      (DomainId.make 1 2 3) = Registry.domain [] (DomainId.make 1 2 3) ∧
    (((1 : Nat), (2 : Nat), (3 : Nat)) ≠ (1, 4, 3) →
      RegState.find (registerTypeFree [] (DomainId.make 1 2 3) 5 6)
        (DomainId.make 1 4 3) = RegState.find [] (DomainId.make 1 4 3) ∧
      (getTypeOrFree (registerTypeFree [] (DomainId.make 1 2 3) 5 6)
        (DomainId.make 1 4 3) 0 7).1 =
        (getTypeOrFree [] (DomainId.make 1 4 3) 0 7).1)) :=
  ⟨by decide,
    C3_registry_domain_identity 1 2 3 1 4 3 [] 5 6 0 7 (by decide)⟩

/-- C6: the code contradicts its own test.  `DomainStorage::registerType`
does report the failure (`false` on a frozen domain), but the public
entry point — the free function `DC::registerType` (`src/DCtype.h` lines
330–335) — has return type `void` and discards that `bool`, so the caller
never sees it; `src/Test.cpp` line 74 nevertheless assigns the call's
result to a `bool` and asserts it is `false`.  The embedded free function
`registerTypeFree` accordingly returns only the registry state; on a
registry whose domain 5 is frozen it leaves everything unchanged while
the discarded storage-level result is `false`. -/
theorem C6_free_registerType_discards_failure :
    (DomainStorage.registerType (⟨true, false, [], []⟩ : DomState) 1 2).1 =
      false ∧
    registerTypeFree [(5, ⟨true, false, [], []⟩)] 5 1 2 =
      [(5, ⟨true, false, [], []⟩)] :=
  ⟨rfl, rfl⟩

theorem keys_freeze_not_mem {s : SimpleDomain} {k : Key}
    (hb : k ∉ keysOf s.builder) (hf : k ∉ keysOf s.frozenMap) :
    k ∉ keysOf (SimpleDomain.freeze s).frozenMap := by
  rw [SimpleDomain.freeze]
  by_cases h : s.frozen
  · rw [if_pos h]; exact hf
  · rw [if_neg h]
    show k ∉ keysOf (FrozenMap.fromEntries s.builder)
    intro hc
    exact hb
      (((List.perm_insertionSort entryLE s.builder).map Prod.fst).mem_iff.1 hc)

theorem freeze_fallback (s : SimpleDomain) :
    (SimpleDomain.freeze s).fallback = s.fallback := by
  rw [SimpleDomain.freeze]
  by_cases h : s.frozen
  · rw [if_pos h]
  · rw [if_neg h]

/-- C4: fallback resolution chain on a query miss (no entry for the token,
in either phase): with an explicit fallback argument the query returns it;
otherwise with a configured domain fallback the query returns that;
otherwise it returns the enumeration's zero value — and in each case the
miss is reported through the miss diagnostic (the query is a total
function; no failure is thrown). -/
theorem C4_fallback_chain (s : SimpleDomain) (k : Key) (f c : EnumV)
    (hb : k ∉ keysOf s.builder) (hf : k ∉ keysOf s.frozenMap) :
    ((SimpleDomain.query s (some f) k).1 = f ∧
      SimpleDomain.queryEmitsMiss s (some f) k = true) ∧
    (s.fallback = some c →
      (SimpleDomain.query s none k).1 = c ∧
      SimpleDomain.queryEmitsMiss s none k = true) ∧
    (s.fallback = none →
      (SimpleDomain.query s none k).1 = 0 ∧
      SimpleDomain.queryEmitsMiss s none k = true) := by
  have hkm := keys_freeze_not_mem hb hf
  have hq : ∀ e : Option EnumV, (SimpleDomain.query s e k).1 =
      SimpleDomain.effectiveFallback (SimpleDomain.freeze s) e :=
    fun e => frozenMap_getOr_of_not_mem hkm _
  have hmiss : ∀ e : Option EnumV, SimpleDomain.queryEmitsMiss s e k = true := by
    intro e
    rw [SimpleDomain.queryEmitsMiss, hq e]
    exact beq_self_eq_true _
  refine ⟨⟨?_, hmiss _⟩, fun hc => ⟨?_, hmiss _⟩, fun hc => ⟨?_, hmiss _⟩⟩
  · rw [hq]; rfl
  · rw [hq]
    show ((SimpleDomain.freeze s).fallback.getD 0) = c
    rw [freeze_fallback, hc]
    rfl
  · rw [hq]
    show ((SimpleDomain.freeze s).fallback.getD 0) = 0
    rw [freeze_fallback, hc]
    rfl

/-- C4 witness: a building domain with entry 1 ↦ 10 and configured fallback
9; querying the unregistered token 2 yields the explicit fallback 5 when
given, else the configured 9; and on a domain without a configured
fallback, 0. -/
theorem C4_fallback_chain_witness :
    ((2 : Key) ∉ keysOf [((1 : Key), (10 : EnumV))] ∧
      (2 : Key) ∉ keysOf ([] : List Entry)) ∧
    ((SimpleDomain.query ⟨false, some 9, [(1, 10)], []⟩ (some 5) 2).1 = 5 ∧
      SimpleDomain.queryEmitsMiss ⟨false, some 9, [(1, 10)], []⟩ (some 5) 2 =
        true) ∧
    (SimpleDomain.query ⟨false, some 9, [(1, 10)], []⟩ none 2).1 = 9 ∧
    (SimpleDomain.query ⟨false, none, [(1, 10)], []⟩ none 2).1 = 0 :=
  ⟨⟨by decide, by decide⟩,
    (C4_fallback_chain ⟨false, some 9, [(1, 10)], []⟩ 2 5 9 (by decide)
      (by decide)).1,
    ((C4_fallback_chain ⟨false, some 9, [(1, 10)], []⟩ 2 5 9 (by decide)
      (by decide)).2.1 rfl).1,
    ((C4_fallback_chain ⟨false, none, [(1, 10)], []⟩ 2 5 9 (by decide)
      (by decide)).2.2 rfl).1⟩

/-- C5: auto-freeze on the first query (spec-modelled simplified domain):
on a still-building domain, the first query leaves the domain frozen,
every subsequent query hits the frozen path and leaves the state
unchanged, and every subsequent registration attempt returns `false`. -/
theorem C5_auto_freeze_first_query (s : SimpleDomain) (hfz : s.frozen = false)
    (e e' : Option EnumV) (k k' kr : Key) (v : EnumV) :
    ((SimpleDomain.query s e k).2).frozen = true ∧
    (SimpleDomain.query ((SimpleDomain.query s e k).2) e' k').2 =
      (SimpleDomain.query s e k).2 ∧
    (SimpleDomain.registerType ((SimpleDomain.query s e k).2) kr v).1 =
      false := by
  have h2 : (SimpleDomain.query s e k).2 = SimpleDomain.freeze s := rfl
  have hfrozen : (SimpleDomain.freeze s).frozen = true := by
    rw [SimpleDomain.freeze, if_neg (by simp [hfz])]
  refine ⟨h2 ▸ hfrozen, ?_, ?_⟩
  · rw [h2]
    show SimpleDomain.freeze (SimpleDomain.freeze s) = SimpleDomain.freeze s
    conv_lhs => rw [SimpleDomain.freeze]
    rw [if_pos hfrozen]
  · rw [h2, SimpleDomain.registerType, if_pos hfrozen]

/-- C5 witness: a building domain with entry 1 ↦ 10; the first query
freezes it, the next query is a frozen no-op, and registering 2 ↦ 20
afterwards fails. -/
theorem C5_auto_freeze_first_query_witness :
    (⟨false, none, [(1, 10)], []⟩ : SimpleDomain).frozen = false ∧
    (((SimpleDomain.query ⟨false, none, [(1, 10)], []⟩ none 1).2).frozen =
      true ∧
    (SimpleDomain.query
      ((SimpleDomain.query ⟨false, none, [(1, 10)], []⟩ none 1).2) none 3).2 =
      (SimpleDomain.query ⟨false, none, [(1, 10)], []⟩ none 1).2 ∧
    (SimpleDomain.registerType
      ((SimpleDomain.query ⟨false, none, [(1, 10)], []⟩ none 1).2) 2 20).1 =
      false) :=
  ⟨rfl,
    C5_auto_freeze_first_query ⟨false, none, [(1, 10)], []⟩ rfl none none
      1 3 2 20⟩

end DCtype
